import Mathlib

/-!
# BansheeEngine: type registry, reference analysis, play-in-editor state, create command

A shallow embedding of four parts of the engine:

* the RTTI type registry and the circular-reference check declared in
  `BsIReflectable.h` (the bodies are not among the sources, so they follow the specification);
* `PlayInEditorManager` (`BsPlayInEditorManager.cpp`), with the engine services it drives kept as
  explicit state;
* the pruning loop of `PlayInEditorManager::saveSceneInMemory`;
* `CmdCreateSO::commit` / `CmdCreateSO::revert` (`BsCmdCreateSO.cpp`).

Stateful code is written as explicit state passing, exceptions as `Except`.
-/

namespace BansheeEngine

/-! ## RTTI type registry -/

/-- Reference kind a field declaration is tagged with (spec section 3). -/
inductive ReferenceKind where
  | value
  | strong
  | weak
deriving DecidableEq, Repr

/-- Modelled from the spec: the field interface (RTTIField) is not among the sources. A field
declaration carries its reference kind and, when it references another reflectable type, the
target type identifier. -/
structure FieldDeclaration where
  kind : ReferenceKind
  target : Option Nat
deriving DecidableEq, Repr

/-- Modelled from the spec: `RTTITypeBase` is only used by name in `BsIReflectable.h`. A type
descriptor has a numeric type identifier, a type name that need not be unique, and an ordered list
of field declarations. `identity` stands for the descriptor object itself (its address): two
descriptors are the same descriptor exactly when their identities agree. -/
structure RTTITypeBase where
  identity : Nat
  typeId : Nat
  typeName : String
  fields : List FieldDeclaration
deriving DecidableEq, Repr

/-- Failures of the registry operations (spec section 7). -/
inductive RegistryError where
  | DuplicateTypeId
  | UnknownTypeId
deriving DecidableEq, Repr

namespace IReflectable

/-- The registry state: the vector behind `IReflectable::getDerivedClasses()`, in insertion
order. -/
abbrev DerivedClasses := List RTTITypeBase

/-- The function-local static of `getDerivedClasses()` starts out empty. -/
def getDerivedClasses : DerivedClasses := []

/-- First registered descriptor carrying the given type identifier. -/
def findTypeId : DerivedClasses → Nat → Option RTTITypeBase
  | [], _ => none
  | d :: rest, rttiTypeId =>
    if d.typeId = rttiTypeId then some d else findTypeId rest rttiTypeId

/-- Modelled from the spec: the body of `IReflectable::_getRTTIfromTypeId` is not among the
sources. `lookupByTypeId(id)` returns the descriptor registered under `id` and fails with
`UnknownTypeId` if absent. -/
def _getRTTIfromTypeId (reg : DerivedClasses) (rttiTypeId : Nat) :
    Except RegistryError RTTITypeBase :=
  match findTypeId reg rttiTypeId with
  | some d => .ok d
  | none => .error .UnknownTypeId

/-- Modelled from the spec: the body of `IReflectable::_registerDerivedClass` is not among the
sources. `registerType(descriptor)` inserts a descriptor, fails with `DuplicateTypeId` if the
identifier is already present with a different descriptor identity, and is a no-op if the
identical descriptor is registered twice. -/
def _registerDerivedClass (reg : DerivedClasses) (derivedClass : RTTITypeBase) :
    Except RegistryError DerivedClasses :=
  match findTypeId reg derivedClass.typeId with
  | none => .ok (reg ++ [derivedClass])
  | some present =>
    if present.identity = derivedClass.identity then .ok reg
    else .error .DuplicateTypeId

/-- A sequence of registrations, stopping at the first failure. -/
def registerAll : DerivedClasses → List RTTITypeBase → Except RegistryError DerivedClasses
  | reg, [] => .ok reg
  | reg, d :: rest =>
    match _registerDerivedClass reg d with
    | .ok reg1 => registerAll reg1 rest
    | .error e => .error e

/-! ## Reference graph analyzer -/

/-- Targets of the strong-reference fields of a descriptor, in declaration order: the outgoing
edges of its node. Value and weak-reference fields contribute no edge. -/
def strongTargets (d : RTTITypeBase) : List Nat :=
  d.fields.filterMap (fun f => if f.kind = ReferenceKind.strong then f.target else none)

/-- Traversal state of the analyzer: the type identifiers discovered so far and the cycles
reported so far, in discovery order. -/
structure Analysis where
  visited : List Nat
  cycles : List (List Nat)
deriving DecidableEq, Repr

/-- Runs a visit over a list of nodes from left to right, threading the traversal state. -/
def visitAll (visit : Analysis → Nat → Option Analysis) :
    Analysis → List Nat → Option Analysis
  | st, [] => some st
  | st, t :: rest =>
    match visit st t with
    | some st1 => visitAll visit st1 rest
    | none => none

/-- Modelled from the spec: the body of `IReflectable::_checkForCircularReferences` is not among
the sources. Depth-first traversal tracking the current path (spec 4.3, step 2): an edge to a
node still on the path is a back-edge and reports the cycle, the part of the path from that node
on (step 3); a node discovered earlier and no longer on the path is not entered again; an
identifier without a registered descriptor has no outgoing edges. The first argument bounds the
recursion depth; `none` means the bound was hit. -/
def visit (reg : DerivedClasses) : Nat → List Nat → Analysis → Nat → Option Analysis
  | 0, _, _, _ => none
  | fuel + 1, path, st, v =>
    if v ∈ path then
      some { st with cycles := st.cycles ++ [path.dropWhile (fun p => p != v)] }
    else if v ∈ st.visited then some st
    else
      match findTypeId reg v with
      | none => some { st with visited := v :: st.visited }
      | some d =>
        visitAll (fun s t => visit reg fuel (path ++ [v]) s t)
          { st with visited := v :: st.visited } (strongTargets d)

/-- Modelled from the spec: the body of `IReflectable::_checkForCircularReferences` is not among
the sources. The analyzer starts a traversal at every registered descriptor in registration order
and returns the list of detected cycles (empty = clean). A path never holds more nodes than there
are registered types, which is the depth bound handed to `visit`. -/
def _checkForCircularReferences (reg : DerivedClasses) : Option (List (List Nat)) :=
  (visitAll (fun s t => visit reg (reg.length + 1) [] s t) ⟨[], []⟩
    (reg.map (fun d => d.typeId))).map (fun st => st.cycles)

/-- Edge of the analysed graph (spec 4.3, step 1): `a → b` when a registered descriptor with
identifier `a` declares a strong-reference field targeting `b`. -/
def StrongEdge (reg : DerivedClasses) (a b : Nat) : Prop :=
  ∃ d ∈ reg, d.typeId = a ∧
    ∃ f ∈ d.fields, f.kind = ReferenceKind.strong ∧ f.target = some b

/-- The strong-reference edges form no cycle: no type reaches itself along one or more edges. -/
def NoStrongCycle (reg : DerivedClasses) : Prop :=
  ∀ v, ¬ Relation.TransGen (StrongEdge reg) v v

end IReflectable

/-! ## Scene hierarchies -/

/-- Modelled from the spec: `SceneObject` is not among the sources (scene-graph tree operations
are external collaborators). The scene objects of one sibling level, in child order: each object
carries its instance id, its flags, the level of its children, and the siblings after it. -/
inductive SceneObjects where
  | nil
  | cons (instanceId : Nat) (flags : Nat) (children : SceneObjects) (next : SceneObjects)
deriving DecidableEq, Repr

namespace SceneObjects

/-- Instance ids of all objects of a hierarchy, parents before children. -/
def ids : SceneObjects → List Nat
  | nil => []
  | cons i _ ch nx => i :: (ids ch ++ ids nx)

/-- Instance ids of the objects of the top level, in order. -/
def roots : SceneObjects → List Nat
  | nil => []
  | cons i _ _ nx => i :: roots nx

/-- Modelled from the spec: `SceneObject::hasFlag` is not among the sources; a flag is set when
the bitwise conjunction with the flag word is not zero. -/
def hasFlag (flags flag : Nat) : Bool := (flags &&& flag) != 0

/-- Dereferencing a handle: the flags of the object with the given instance id and the handles
of its children (`getNumChildren` / `getChild(i)`), or `none` when no such object exists. -/
def lookup : SceneObjects → Nat → Option (Nat × List Nat)
  | nil, _ => none
  | cons i fl ch nx, x =>
    if i = x then some (fl, roots ch)
    else
      match lookup ch x with
      | some r => some r
      | none => lookup nx x

/-- Modelled from the spec: `SceneObject::destroy` is not among the sources. Destroying an object
detaches it from its parent; the object and its whole subtree leave the hierarchy. -/
def destroy : SceneObjects → Nat → SceneObjects
  | nil, _ => nil
  | cons i fl ch nx, x =>
    if i = x then nx else cons i fl (destroy ch x) (destroy nx x)

/-- The hierarchy with exactly the subtrees rooted at flagged objects pruned. -/
def pruned (dontSave : Nat) : SceneObjects → SceneObjects
  | nil => nil
  | cons i fl ch nx =>
    if hasFlag fl dontSave then pruned dontSave nx
    else cons i fl (pruned dontSave ch) (pruned dontSave nx)

/-- Instance ids of the objects that carry the flag. -/
def flaggedIds (dontSave : Nat) : SceneObjects → List Nat
  | nil => []
  | cons i fl ch nx =>
    (if hasFlag fl dontSave then [i] else []) ++ (flaggedIds dontSave ch ++ flaggedIds dontSave nx)

/-- Instance ids of the objects that neither carry the flag nor have an ancestor carrying it. -/
def kept (dontSave : Nat) : SceneObjects → List Nat
  | nil => []
  | cons i fl ch nx =>
    (if hasFlag fl dontSave then [] else i :: kept dontSave ch) ++ kept dontSave nx

/-- The parent/child relation of a hierarchy: one pair (parent, child) per object, in traversal
order; the objects of the top level have the given parent. -/
def links : Option Nat → SceneObjects → List (Option Nat × Nat)
  | _, nil => []
  | parent, cons i _ ch nx => (parent, i) :: (links (some i) ch ++ links parent nx)

/-- Number of handles the pruning loop pops while it works through a level. -/
def pops (dontSave : Nat) : SceneObjects → Nat
  | nil => 0
  | cons _ fl ch nx =>
    (if hasFlag fl dontSave then 0 else pops dontSave ch) + pops dontSave nx + 1

end SceneObjects

open SceneObjects

/-- Ways an operation of the model can fail: a null handle is dereferenced, a handle to an object
that no longer exists is dereferenced, or the iteration bound of a loop is exhausted. -/
inductive Fault where
  | nullHandle
  | destroyedObject
  | loopBound
deriving DecidableEq, Repr

/-- The loop of `PlayInEditorManager::saveSceneInMemory` ("Remove objects with dont save flag").
The list is the stack `todo` with its top first; each iteration pops `current`, destroys it when
it has the flag, and otherwise pushes its children in index order, so that the last child ends up
on top. The first argument bounds the number of iterations. -/
def removeDontSave (SOF_DontSave : Nat) :
    Nat → SceneObjects → List Nat → Except Fault SceneObjects
  | _, scene, [] => .ok scene
  | 0, _, _ :: _ => .error .loopBound
  | fuel + 1, scene, current :: todo =>
    match lookup scene current with
    | none => .error .destroyedObject
    | some (flags, children) =>
      if hasFlag flags SOF_DontSave then
        removeDontSave SOF_DontSave fuel (destroy scene current) todo
      else
        removeDontSave SOF_DontSave fuel scene (children.reverse ++ todo)

/-- Modelled from the spec: `HSceneObject` (a game object handle) is not among the sources. A
non-null handle is the instance id it names together with the hierarchy behind it: the named
object with its subtree, or `nil` once that object has been destroyed. -/
structure HSceneObject where
  instanceId : Nat
  objects : SceneObjects
  instantiated : Bool
deriving DecidableEq, Repr

/-- Modelled from the spec: `SceneObject::clone` is not among the sources. The copy has the shape
and flags of the original; its objects are named like the originals. -/
def HSceneObject.clone (h : HSceneObject) (instantiate : Bool) : HSceneObject :=
  { h with instantiated := instantiate }

/-- Modelled from the spec: `SceneObject::_instantiate` is not among the sources; it marks the
hierarchy as instantiated. -/
def HSceneObject._instantiate (h : HSceneObject) : HSceneObject :=
  { h with instantiated := true }

/-- Modelled from the spec: `GameObjectHandle::isDestroyed` is not among the sources; the handle
is destroyed when the object it names no longer exists. -/
def HSceneObject.isDestroyed (h : HSceneObject) : Bool :=
  match h.objects with
  | nil => true
  | cons _ _ _ _ => false

/-- A handle to a finite scene hierarchy: it names the single object of the top level, and
instance ids are unique. -/
def WellFormed (h : HSceneObject) : Prop :=
  ∃ fl ch, h.objects = cons h.instanceId fl ch nil ∧ (ids h.objects).Nodup

/-! ## PlayInEditorManager -/

/-- The states of `PlayInEditorState` the manager switches over. -/
inductive PlayInEditorState where
  | Stopped
  | Playing
  | Paused
deriving DecidableEq, Repr

/-- The engine services the manager drives: the pause state of physics, audio and animation, the
root node of the scene manager, and how often the runtime components were woken. -/
structure Engine where
  physicsPaused : Bool
  audioPaused : Bool
  animationPaused : Bool
  rootNode : HSceneObject
  runtimeWakeups : Nat
deriving DecidableEq, Repr

/-- The members of `PlayInEditorManager` together with the engine it acts on. `mSavedScene` is
`none` for a null handle. Time is counted in whole ticks. -/
structure PlayInEditorManager where
  mState : PlayInEditorState
  mNextState : PlayInEditorState
  mFrameStepActive : Bool
  mScheduledStateChange : Bool
  mPausableTime : Int
  mSavedScene : Option HSceneObject
  engine : Engine
deriving DecidableEq, Repr

namespace PlayInEditorManager

/-- `PlayInEditorManager::setSystemsPauseState`. -/
def setSystemsPauseState (paused : Bool) (m : PlayInEditorManager) : PlayInEditorManager :=
  { m with engine :=
      { m.engine with physicsPaused := paused, audioPaused := paused, animationPaused := paused } }

/-- `ScriptGameObjectManager::instance().wakeRuntimeComponents()`, recorded as a counter. -/
def wakeRuntimeComponents (m : PlayInEditorManager) : PlayInEditorManager :=
  { m with engine := { m.engine with runtimeWakeups := m.engine.runtimeWakeups + 1 } }

/-- The constructor `PlayInEditorManager::PlayInEditorManager`; `isEditor` is
`gApplication().isEditor()`. -/
def create (isEditor : Bool) (engine : Engine) : PlayInEditorManager :=
  let m : PlayInEditorManager :=
    { mState := .Stopped, mNextState := .Stopped, mFrameStepActive := false,
      mScheduledStateChange := false, mPausableTime := 0, mSavedScene := none,
      engine := engine }
  if !isEditor then { m with mState := .Playing }
  else setSystemsPauseState true m

/-- `PlayInEditorManager::setState`. -/
def setState (isEditor : Bool) (state : PlayInEditorState) (m : PlayInEditorManager) :
    PlayInEditorManager :=
  if !isEditor then m
  else { m with mScheduledStateChange := true, mNextState := state }

/-- `PlayInEditorManager::saveSceneInMemory`: the root node is cloned into `mSavedScene`, the
handle is pushed, and the loop removes the objects with the flag from the hierarchy behind it.
The loop is given one iteration per object of the clone. -/
def saveSceneInMemory (SOF_DontSave : Nat) (m : PlayInEditorManager) :
    Except Fault PlayInEditorManager :=
  if m.engine.rootNode.isDestroyed then .error .destroyedObject
  else
    let saved := m.engine.rootNode.clone false
    match removeDontSave SOF_DontSave (ids saved.objects).length saved.objects
        [saved.instanceId] with
    | .ok objects => .ok { m with mSavedScene := some { saved with objects := objects } }
    | .error f => .error f

/-- `PlayInEditorManager::setStateImmediate`. -/
def setStateImmediate (SOF_DontSave : Nat) (state : PlayInEditorState)
    (m : PlayInEditorManager) : Except Fault PlayInEditorManager :=
  if m.mState = state then .ok m
  else
    let oldState := m.mState
    let m1 := { m with mState := state }
    match state with
    | .Stopped =>
      let m2 := setSystemsPauseState true
        { m1 with mFrameStepActive := false, mPausableTime := 0 }
      match m2.mSavedScene with
      | none => .error .nullHandle
      | some saved =>
        if saved.isDestroyed then .error .destroyedObject
        else
          .ok { m2 with engine := { m2.engine with rootNode := saved._instantiate },
                        mSavedScene := none }
    | .Playing =>
      if oldState = .Stopped then
        match saveSceneInMemory SOF_DontSave m1 with
        | .ok m2 => .ok (setSystemsPauseState false (wakeRuntimeComponents m2))
        | .error f => .error f
      else .ok (setSystemsPauseState false m1)
    | .Paused =>
      let m2 := setSystemsPauseState true { m1 with mFrameStepActive := false }
      if oldState = .Stopped then
        match saveSceneInMemory SOF_DontSave m2 with
        | .ok m3 => .ok (wakeRuntimeComponents m3)
        | .error f => .error f
      else .ok m2

/-- `PlayInEditorManager::frameStep`. -/
def frameStep (isEditor : Bool) (m : PlayInEditorManager) : PlayInEditorManager :=
  if !isEditor then m
  else
    let m1 :=
      match m.mState with
      | .Stopped => setState isEditor .Playing m
      | .Paused => setState isEditor .Playing m
      | .Playing => m
    { m1 with mFrameStepActive := true }

/-- `PlayInEditorManager::update`; `frameDelta` is `gTime().getFrameDelta()`. -/
def update (isEditor : Bool) (SOF_DontSave : Nat) (frameDelta : Int)
    (m : PlayInEditorManager) : Except Fault PlayInEditorManager :=
  let m1 :=
    if m.mState = .Playing then { m with mPausableTime := m.mPausableTime + frameDelta }
    else m
  let scheduled : Except Fault PlayInEditorManager :=
    if m1.mScheduledStateChange then
      match setStateImmediate SOF_DontSave m1.mNextState m1 with
      | .ok m2 => .ok { m2 with mScheduledStateChange := false }
      | .error f => .error f
    else .ok m1
  match scheduled with
  | .ok m3 =>
    if m3.mFrameStepActive then
      .ok { setState isEditor .Paused m3 with mFrameStepActive := false }
    else .ok m3
  | .error f => .error f

/-- The manager states reachable from construction by `setState`, `frameStep` and `update` calls
that return, with the scene manager's root node replaced at will in between. -/
inductive Reachable (isEditor : Bool) (SOF_DontSave : Nat) : PlayInEditorManager → Prop where
  | created (engine : Engine) : Reachable isEditor SOF_DontSave (create isEditor engine)
  | afterSetState (state : PlayInEditorState) (m : PlayInEditorManager)
      (h : Reachable isEditor SOF_DontSave m) :
      Reachable isEditor SOF_DontSave (setState isEditor state m)
  | afterFrameStep (m : PlayInEditorManager) (h : Reachable isEditor SOF_DontSave m) :
      Reachable isEditor SOF_DontSave (frameStep isEditor m)
  | afterUpdate (frameDelta : Int) (m m1 : PlayInEditorManager)
      (h : Reachable isEditor SOF_DontSave m)
      (hstep : update isEditor SOF_DontSave frameDelta m = .ok m1) :
      Reachable isEditor SOF_DontSave m1
  | sceneChanged (rootNode : HSceneObject) (m : PlayInEditorManager)
      (h : Reachable isEditor SOF_DontSave m) :
      Reachable isEditor SOF_DontSave { m with engine := { m.engine with rootNode := rootNode } }

end PlayInEditorManager

/-- The current state is Stopped exactly when no saved scene is held. -/
def EditorInv (m : PlayInEditorManager) : Prop :=
  m.mState = .Stopped ↔ m.mSavedScene = none

/-- Outside the editor the state is Playing and nothing is scheduled. -/
def GameInv (m : PlayInEditorManager) : Prop :=
  m.mState = .Playing ∧ m.mScheduledStateChange = false ∧ m.mFrameStepActive = false

/-- The scene handles an update may dereference name live objects: the root node is a
well-formed hierarchy and a held saved scene has not been destroyed. -/
def SceneReady (m : PlayInEditorManager) : Prop :=
  WellFormed m.engine.rootNode ∧ ∀ sv, m.mSavedScene = some sv → sv.isDestroyed = false

/-- A function on hierarchies that embeds a level into a surrounding hierarchy without touching
it: looking up or destroying an object of the embedded level acts on that level alone. -/
def Local (C : SceneObjects → SceneObjects) (P : Nat → Prop) : Prop :=
  ∀ g : SceneObjects, (ids g).Nodup → (∀ x ∈ ids g, P x) →
    ∀ x ∈ ids g, lookup (C g) x = lookup g x ∧ destroy (C g) x = C (destroy g x)

/-! ## CmdCreateSO -/

/-- Modelled from the spec: `SceneObject` is not among the sources. A live scene object as the
create command sees it. -/
structure SceneObjectInfo where
  instanceId : Nat
  name : String
  flags : Nat
deriving DecidableEq, Repr

/-- The live scene objects and the instance id the next created object receives. -/
structure SceneWorld where
  objects : List SceneObjectInfo
  nextInstanceId : Nat
deriving DecidableEq, Repr

namespace SceneObject

/-- Modelled from the spec: `SceneObject::create` is not among the sources. Creates a live object
with the given name and flags and returns the handle to it. -/
def create (name : String) (flags : Nat) (w : SceneWorld) : Nat × SceneWorld :=
  (w.nextInstanceId,
    { objects := w.objects ++ [⟨w.nextInstanceId, name, flags⟩],
      nextInstanceId := w.nextInstanceId + 1 })

/-- Modelled from the spec: `GameObjectHandle::isDestroyed` is not among the sources. A handle is
destroyed when no live object has its instance id. -/
def isDestroyed (handle : Nat) (w : SceneWorld) : Bool :=
  !(w.objects.any (fun o => o.instanceId == handle))

/-- Modelled from the spec: `SceneObject::destroy(true)` is not among the sources. The object
stops being live at once. -/
def destroy (handle : Nat) (w : SceneWorld) : SceneWorld :=
  { w with objects := w.objects.filter (fun o => o.instanceId != handle) }

end SceneObject

/-- The members of `CmdCreateSO`; `mSceneObject` is `none` for a null handle and otherwise the
instance id the handle names. -/
structure CmdCreateSO where
  mName : String
  mFlags : Nat
  mSceneObject : Option Nat
deriving DecidableEq, Repr

namespace CmdCreateSO

/-- `CmdCreateSO::commit`. -/
def commit (c : CmdCreateSO) (w : SceneWorld) : CmdCreateSO × SceneWorld :=
  let created := SceneObject.create c.mName c.mFlags w
  ({ c with mSceneObject := some created.1 }, created.2)

/-- `CmdCreateSO::revert`. -/
def revert (c : CmdCreateSO) (w : SceneWorld) : CmdCreateSO × SceneWorld :=
  match c.mSceneObject with
  | none => (c, w)
  | some handle =>
    let w1 := if !SceneObject.isDestroyed handle w then SceneObject.destroy handle w else w
    ({ c with mSceneObject := none }, w1)

end CmdCreateSO

/-! ## Concrete inputs -/

/-- Type A: a value field and a strong reference to B. -/
def typeA : RTTITypeBase := ⟨100, 1, "A", [⟨.value, none⟩, ⟨.strong, some 2⟩]⟩

/-- Type B with a strong reference to A. -/
def typeB : RTTITypeBase := ⟨200, 2, "B", [⟨.strong, some 1⟩]⟩

/-- Type B with a weak reference to A. -/
def typeBWeak : RTTITypeBase := ⟨200, 2, "B", [⟨.weak, some 1⟩]⟩

/-- Another descriptor that claims the type identifier of A. -/
def typeAClash : RTTITypeBase := ⟨300, 1, "A2", []⟩

/-- A scene: root 1 with children 2 (flagged, with child 3), 4 (with children 5, flagged, and 6). -/
def sampleScene : SceneObjects :=
  cons 1 0 (cons 2 2 (cons 3 0 nil nil) (cons 4 0 (cons 5 2 nil (cons 6 1 nil nil)) nil)) nil

/-- An engine whose scene root is the sample scene. -/
def sampleEngine : Engine :=
  { physicsPaused := false, audioPaused := false, animationPaused := false,
    rootNode := ⟨1, sampleScene, true⟩, runtimeWakeups := 0 }

/-- The editor-mode manager after play was requested and one update ran. -/
def samplePlaying : PlayInEditorManager :=
  { mState := .Playing, mNextState := .Playing, mFrameStepActive := false,
    mScheduledStateChange := false, mPausableTime := 0,
    mSavedScene := some ⟨1, cons 1 0 (cons 4 0 (cons 6 1 nil nil) nil) nil, false⟩,
    engine := { sampleEngine with runtimeWakeups := 1 } }


/-! ## Theorems: registry -/

open IReflectable

/-- Lookup in a registry extended by one descriptor at the end. -/
theorem findTypeId_append (reg : DerivedClasses) (d : RTTITypeBase) (i : Nat) :
    findTypeId (reg ++ [d]) i =
      match findTypeId reg i with
      | some e => some e
      | none => if d.typeId = i then some d else none := by
  induction reg with
  | nil => simp [findTypeId]
  | cons e rest ih =>
    by_cases he : e.typeId = i
    · simp [findTypeId, he]
    · simp [findTypeId, he, ih]

/-- The lookup misses exactly the identifiers no registered descriptor carries. -/
theorem findTypeId_none_iff (reg : DerivedClasses) (i : Nat) :
    findTypeId reg i = none ↔ i ∉ reg.map (fun d => d.typeId) := by
  induction reg with
  | nil => simp [findTypeId]
  | cons e rest ih =>
    by_cases he : e.typeId = i
    · simp [findTypeId, he]
    · simp only [findTypeId, he, if_false, ih, List.map_cons, List.mem_cons, not_or]
      constructor
      · intro h; exact ⟨fun c => he c.symm, h⟩
      · intro h; exact h.2

/-- A found descriptor is registered and carries the requested identifier. -/
theorem findTypeId_some (reg : DerivedClasses) (i : Nat) (d : RTTITypeBase)
    (h : findTypeId reg i = some d) : d ∈ reg ∧ d.typeId = i := by
  induction reg with
  | nil => simp [findTypeId] at h
  | cons e rest ih =>
    by_cases he : e.typeId = i
    · simp [findTypeId, he] at h
      subst h
      exact ⟨List.mem_cons_self _ _, he⟩
    · simp only [findTypeId, he, if_false] at h
      exact ⟨List.mem_cons_of_mem _ (ih h).1, (ih h).2⟩

/-- Without duplicate identifiers, every registered descriptor is found under its identifier. -/
theorem findTypeId_of_mem (reg : DerivedClasses) (d : RTTITypeBase)
    (hn : (reg.map (fun d => d.typeId)).Nodup) (hd : d ∈ reg) :
    findTypeId reg d.typeId = some d := by
  induction reg with
  | nil => simp at hd
  | cons e rest ih =>
    simp only [List.map_cons, List.nodup_cons] at hn
    by_cases he : e.typeId = d.typeId
    · have : d = e := by
        rcases List.mem_cons.mp hd with h | h
        · exact h
        · exfalso; apply hn.1; rw [he]; exact List.mem_map_of_mem _ h
      subst this
      simp [findTypeId]
    · have hmem : d ∈ rest := by
        rcases List.mem_cons.mp hd with h | h
        · exact absurd (by rw [h]) he
        · exact h
      simp only [findTypeId, he, if_false]
      exact ih hn.2 hmem

/-- Registering under an identifier that is not present appends the descriptor. -/
theorem registerDerivedClass_fresh (reg : DerivedClasses) (d : RTTITypeBase)
    (h : d.typeId ∉ reg.map (fun d => d.typeId)) :
    _registerDerivedClass reg d = .ok (reg ++ [d]) := by
  unfold _registerDerivedClass
  rw [(findTypeId_none_iff reg d.typeId).mpr h]

/-- A sequence with identifiers distinct from each other and from the registry is appended as a
whole. -/
theorem registerAll_distinct (ds : List RTTITypeBase) :
    ∀ reg : DerivedClasses, ((reg ++ ds).map (fun d => d.typeId)).Nodup →
      registerAll reg ds = .ok (reg ++ ds) := by
  induction ds with
  | nil => intro reg _; simp [registerAll]
  | cons d rest ih =>
    intro reg hn
    have hfresh : d.typeId ∉ reg.map (fun d => d.typeId) := by
      intro hmem
      rw [List.map_append, List.nodup_append] at hn
      exact hn.2.2 hmem (by simp)
    unfold registerAll
    rw [registerDerivedClass_fresh reg d hfresh]
    have h2 : reg ++ d :: rest = (reg ++ [d]) ++ rest := by simp
    simp only
    rw [h2] at hn ⊢
    exact ih _ hn

/-- A successful registration keeps the identifiers of the registry distinct. -/
theorem registerDerivedClass_keeps_distinct (reg reg1 : DerivedClasses) (d : RTTITypeBase)
    (hn : (reg.map (fun d => d.typeId)).Nodup)
    (h : _registerDerivedClass reg d = .ok reg1) : (reg1.map (fun d => d.typeId)).Nodup := by
  unfold _registerDerivedClass at h
  cases hf : findTypeId reg d.typeId with
  | none =>
    rw [hf] at h
    simp only [Except.ok.injEq] at h
    subst h
    have hfresh := (findTypeId_none_iff reg d.typeId).mp hf
    rw [List.map_append, List.nodup_append]
    refine ⟨hn, by simp, ?_⟩
    intro a ha hb
    simp only [List.map_cons, List.map_nil, List.mem_singleton] at hb
    subst hb
    exact hfresh ha
  | some present =>
    rw [hf] at h
    by_cases hid : present.identity = d.identity
    · simp only [hid, if_true, Except.ok.injEq] at h
      subst h
      exact hn
    · simp [hid] at h

/-- A successful sequence of registrations keeps the identifiers of the registry distinct. -/
theorem registerAll_keeps_distinct (ds : List RTTITypeBase) :
    ∀ reg reg1 : DerivedClasses, (reg.map (fun d => d.typeId)).Nodup →
      registerAll reg ds = .ok reg1 → (reg1.map (fun d => d.typeId)).Nodup := by
  induction ds with
  | nil =>
    intro reg reg1 hn h
    simp only [registerAll, Except.ok.injEq] at h
    subst h
    exact hn
  | cons d rest ih =>
    intro reg reg1 hn h
    unfold registerAll at h
    cases hr : _registerDerivedClass reg d with
    | error e => rw [hr] at h; simp at h
    | ok reg2 =>
      rw [hr] at h
      exact ih reg2 reg1 (registerDerivedClass_keeps_distinct reg reg2 d hn hr) h

/-- C1: registering, from the empty registry, any sequence of descriptors with pairwise distinct
type identifiers succeeds, and afterwards the lookup by type id of every registered identifier
returns exactly the descriptor registered under it; every successful lookup returns a descriptor
of the sequence that carries the requested identifier. -/
theorem lookup_returns_registered_descriptor (ds : List RTTITypeBase)
    (hdistinct : (ds.map (fun d => d.typeId)).Nodup) :
    ∃ reg, registerAll getDerivedClasses ds = .ok reg ∧
      (∀ d ∈ ds, _getRTTIfromTypeId reg d.typeId = .ok d) ∧
      (∀ i d, _getRTTIfromTypeId reg i = .ok d → d ∈ ds ∧ d.typeId = i) := by
  refine ⟨ds, ?_, ?_, ?_⟩
  · have := registerAll_distinct ds [] (by simpa using hdistinct)
    simpa [getDerivedClasses] using this
  · intro d hd
    unfold _getRTTIfromTypeId
    rw [findTypeId_of_mem ds d hdistinct hd]
  · intro i d h
    unfold _getRTTIfromTypeId at h
    cases hf : findTypeId ds i with
    | none => rw [hf] at h; simp at h
    | some e =>
      rw [hf] at h
      simp only [Except.ok.injEq] at h
      subst h
      exact findTypeId_some ds i e hf

/-- Witness for C1: the sequence A, B. -/
theorem lookup_returns_registered_descriptor_witness :
    ([typeA, typeB].map (fun d => d.typeId)).Nodup ∧
    ∃ reg, registerAll getDerivedClasses [typeA, typeB] = .ok reg ∧
      (∀ d ∈ [typeA, typeB], _getRTTIfromTypeId reg d.typeId = .ok d) ∧
      (∀ i d, _getRTTIfromTypeId reg i = .ok d → d ∈ [typeA, typeB] ∧ d.typeId = i) :=
  ⟨by decide, lookup_returns_registered_descriptor [typeA, typeB] (by decide)⟩

/-- C2: in every registry state reached by registrations, registering a descriptor that is
already registered succeeds without DuplicateTypeId and returns the registry unchanged, and
registering a descriptor of a different identity whose type identifier equals that of a
registered descriptor fails with DuplicateTypeId. -/
theorem register_again_noop_and_duplicate_rejected (ds : List RTTITypeBase)
    (reg : DerivedClasses) (hreached : registerAll getDerivedClasses ds = .ok reg) :
    (∀ d ∈ reg, _registerDerivedClass reg d = .ok reg) ∧
    (∀ d ∈ reg, ∀ other : RTTITypeBase, other.identity ≠ d.identity →
      other.typeId = d.typeId →
      _registerDerivedClass reg other = .error .DuplicateTypeId) := by
  have hinv : (reg.map (fun d => d.typeId)).Nodup :=
    registerAll_keeps_distinct ds [] reg (by simp) hreached
  constructor
  · intro d hd
    unfold _registerDerivedClass
    rw [findTypeId_of_mem reg d hinv hd]
    simp
  · intro d hd other hne hid
    unfold _registerDerivedClass
    rw [hid, findTypeId_of_mem reg d hinv hd]
    simp only
    rw [if_neg (fun h => hne h.symm)]

/-- Witness for C2: in the registry holding A and B, registering A again changes nothing and a
second descriptor with the identifier of A is rejected. -/
theorem register_again_noop_and_duplicate_rejected_witness :
    registerAll getDerivedClasses [typeA, typeB] = .ok [typeA, typeB] ∧
    _registerDerivedClass [typeA, typeB] typeA = .ok [typeA, typeB] ∧
    _registerDerivedClass [typeA, typeB] typeAClash = .error .DuplicateTypeId :=
  ⟨rfl,
    (register_again_noop_and_duplicate_rejected [typeA, typeB] [typeA, typeB] rfl).1
      typeA (by decide),
    (register_again_noop_and_duplicate_rejected [typeA, typeB] [typeA, typeB] rfl).2
      typeA (by decide) typeAClash (by decide) rfl⟩

/-! ## Theorems: reference analysis -/

/-- If no single visit fails or reports a cycle, neither does a run over a list of nodes. -/
theorem visitAll_keeps_cycles (f : Analysis → Nat → Option Analysis) (ts : List Nat)
    (hf : ∀ st t, t ∈ ts → ∃ st1, f st t = some st1 ∧ st1.cycles = st.cycles) :
    ∀ st, ∃ st1, visitAll f st ts = some st1 ∧ st1.cycles = st.cycles := by
  induction ts with
  | nil => intro st; exact ⟨st, rfl, rfl⟩
  | cons t rest ih =>
    intro st
    obtain ⟨st1, h1, c1⟩ := hf st t (List.mem_cons_self _ _)
    obtain ⟨st2, h2, c2⟩ :=
      ih (fun s u hu => hf s u (List.mem_cons_of_mem _ hu)) st1
    refine ⟨st2, ?_, c2.trans c1⟩
    simp only [visitAll, h1]
    exact h2

/-- Every edge the traversal follows is a strong-reference edge of the registry. -/
theorem strongEdge_of_target (reg : DerivedClasses) (v t : Nat) (d : RTTITypeBase)
    (hd : findTypeId reg v = some d) (ht : t ∈ strongTargets d) : StrongEdge reg v t := by
  obtain ⟨hmem, hid⟩ := findTypeId_some reg v d hd
  unfold strongTargets at ht
  rw [List.mem_filterMap] at ht
  obtain ⟨f, hf, hft⟩ := ht
  refine ⟨d, hmem, hid, f, hf, ?_⟩
  by_cases hk : f.kind = ReferenceKind.strong
  · rw [if_pos hk] at hft
    exact ⟨hk, hft⟩
  · rw [if_neg hk] at hft
    exact absurd hft (by simp)

/-- A path of distinct registered identifiers is no longer than the registry. -/
theorem path_length_le (reg : DerivedClasses) (path : List Nat) (hnd : path.Nodup)
    (hreg : ∀ p ∈ path, p ∈ reg.map (fun d => d.typeId)) : path.length ≤ reg.length := by
  have h := (List.Nodup.subperm hnd (fun p hp => hreg p hp)).length_le
  simpa using h

/-- Without a strong-reference cycle a visit stays within its depth bound and reports nothing:
every node on the path reaches the visited node, so the visited node is never on the path. -/
theorem visit_acyclic (reg : DerivedClasses) (hacyc : NoStrongCycle reg) :
    ∀ (fuel : Nat) (path : List Nat) (st : Analysis) (v : Nat),
      reg.length < path.length + fuel → path.Nodup →
      (∀ p ∈ path, p ∈ reg.map (fun d => d.typeId)) →
      (∀ p ∈ path, Relation.TransGen (StrongEdge reg) p v) →
      ∃ st1, visit reg fuel path st v = some st1 ∧ st1.cycles = st.cycles := by
  intro fuel
  induction fuel with
  | zero =>
    intro path st v hfuel hnd hreg _
    have := path_length_le reg path hnd hreg
    omega
  | succ fuel ih =>
    intro path st v hfuel hnd hreg hreach
    have hnot : v ∉ path := fun hv => hacyc v (hreach v hv)
    unfold visit
    rw [if_neg hnot]
    by_cases hvis : v ∈ st.visited
    · rw [if_pos hvis]; exact ⟨st, rfl, rfl⟩
    · rw [if_neg hvis]
      cases hd : findTypeId reg v with
      | none => exact ⟨_, rfl, rfl⟩
      | some d =>
        simp only
        have hvreg : v ∈ reg.map (fun d => d.typeId) := by
          by_contra hc
          rw [(findTypeId_none_iff reg v).mpr hc] at hd
          exact absurd hd (by simp)
        have key := visitAll_keeps_cycles
          (fun s t => visit reg fuel (path ++ [v]) s t) (strongTargets d)
          (fun s t ht => by
            have hedge := strongEdge_of_target reg v t d hd ht
            apply ih (path ++ [v]) s t
            · simp only [List.length_append, List.length_singleton]; omega
            · rw [List.nodup_append]
              refine ⟨hnd, List.nodup_singleton v, ?_⟩
              intro a ha hb
              rw [List.mem_singleton] at hb
              subst hb
              exact hnot ha
            · intro p hp
              rcases List.mem_append.mp hp with h | h
              · exact hreg p h
              · rw [List.mem_singleton] at h; subst h; exact hvreg
            · intro p hp
              rcases List.mem_append.mp hp with h | h
              · exact Relation.TransGen.tail (hreach p h) hedge
              · rw [List.mem_singleton] at h; subst h
                exact Relation.TransGen.single hedge)
          { st with visited := v :: st.visited }
        exact key

/-- The analyzer on two types whose only strong fields target each other. -/
theorem check_mutual_pair (a b : RTTITypeBase) (hne : a.typeId ≠ b.typeId)
    (ha : strongTargets a = [b.typeId]) (hb : strongTargets b = [a.typeId]) :
    _checkForCircularReferences [a, b] = some [[a.typeId, b.typeId]] := by
  have hne2 : b.typeId ≠ a.typeId := fun h => hne h.symm
  simp [_checkForCircularReferences, visitAll, visit, findTypeId, ha, hb, hne, hne2,
    List.dropWhile]

/-- The only strong edge of the universe A, B-with-weak-field leads from A to B. -/
theorem sample_weak_edges (a b : Nat) (h : StrongEdge [typeA, typeBWeak] a b) :
    a = 1 ∧ b = 2 := by
  obtain ⟨d, hd, hid, f, hf, hk, ht⟩ := h
  simp only [List.mem_cons, List.mem_singleton, List.not_mem_nil, or_false] at hd
  rcases hd with rfl | rfl
  · simp only [typeA, List.mem_cons, List.mem_singleton, List.not_mem_nil, or_false] at hf
    rcases hf with rfl | rfl
    · simp at hk
    · simp at ht
      exact ⟨hid.symm, ht.symm⟩
  · simp only [typeBWeak, List.mem_cons, List.mem_singleton, List.not_mem_nil, or_false] at hf
    subst hf
    simp at hk

/-- C3: for two types A and B whose only strong-reference fields target each other, registered
in either order, the circular-reference check reports exactly one cycle, and its list of type
identifiers consists of A and B next to each other, starting at the type registered first. -/
theorem mutual_strong_references_report_one_cycle (a b : RTTITypeBase)
    (hne : a.typeId ≠ b.typeId)
    (ha : strongTargets a = [b.typeId]) (hb : strongTargets b = [a.typeId]) :
    registerAll getDerivedClasses [a, b] = .ok [a, b] ∧
    _checkForCircularReferences [a, b] = some [[a.typeId, b.typeId]] ∧
    registerAll getDerivedClasses [b, a] = .ok [b, a] ∧
    _checkForCircularReferences [b, a] = some [[b.typeId, a.typeId]] := by
  have hne2 : b.typeId ≠ a.typeId := fun h => hne h.symm
  refine ⟨?_, check_mutual_pair a b hne ha hb, ?_, check_mutual_pair b a hne2 hb ha⟩
  · simp [registerAll, _registerDerivedClass, findTypeId, getDerivedClasses, hne]
  · simp [registerAll, _registerDerivedClass, findTypeId, getDerivedClasses, hne2]

/-- Witness for C3: A with a value field and a strong field to B, B with a strong field to A. -/
theorem mutual_strong_references_report_one_cycle_witness :
    (typeA.typeId ≠ typeB.typeId ∧ strongTargets typeA = [typeB.typeId] ∧
      strongTargets typeB = [typeA.typeId]) ∧
    registerAll getDerivedClasses [typeA, typeB] = .ok [typeA, typeB] ∧
    _checkForCircularReferences [typeA, typeB] = some [[1, 2]] ∧
    registerAll getDerivedClasses [typeB, typeA] = .ok [typeB, typeA] ∧
    _checkForCircularReferences [typeB, typeA] = some [[2, 1]] :=
  ⟨⟨by decide, by decide, by decide⟩,
    mutual_strong_references_report_one_cycle typeA typeB (by decide) (by decide) (by decide)⟩

/-- C4: for every registered type universe whose strong-reference edges form no cycle, the
circular-reference check returns the empty cycle list; weak-reference fields are no edges of the
analysed graph, so the universe may hold any weak references. -/
theorem no_strong_cycle_reports_nothing (reg : DerivedClasses) (hacyc : NoStrongCycle reg) :
    _checkForCircularReferences reg = some [] := by
  unfold _checkForCircularReferences
  obtain ⟨st1, h1, c1⟩ := visitAll_keeps_cycles
    (fun s t => visit reg (reg.length + 1) [] s t) (reg.map (fun d => d.typeId))
    (fun s t _ => visit_acyclic reg hacyc (reg.length + 1) [] s t
      (by simp) List.nodup_nil (by simp) (by simp))
    ⟨[], []⟩
  rw [h1]
  simp [c1]

/-- Witness for C4: A strongly references B and B weakly references A; no cycle is reported. -/
theorem no_strong_cycle_reports_nothing_witness :
    NoStrongCycle [typeA, typeBWeak] ∧
    _checkForCircularReferences [typeA, typeBWeak] = some [] := by
  have hac : NoStrongCycle [typeA, typeBWeak] := by
    intro v hv
    obtain ⟨x, hx, _⟩ := Relation.TransGen.head'_iff.mp hv
    obtain ⟨y, _, hy⟩ := Relation.TransGen.tail'_iff.mp hv
    have h1 := (sample_weak_edges v x hx).1
    have h2 := (sample_weak_edges y v hy).2
    omega
  exact ⟨hac, no_strong_cycle_reports_nothing [typeA, typeBWeak] hac⟩

/-! ## Theorems: scene pruning -/

/-- Looking up an instance id that does not occur yields nothing. -/
theorem lookup_not_mem (g : SceneObjects) (x : Nat) (h : x ∉ ids g) : lookup g x = none := by
  induction g with
  | nil => rfl
  | cons i fl ch nx ihc ihn =>
    simp only [ids, List.mem_cons, List.mem_append, not_or] at h
    have hi : ¬ i = x := fun c => h.1 c.symm
    simp only [lookup, if_neg hi, ihc h.2.1, ihn h.2.2]

/-- Destroying an instance id that does not occur changes nothing. -/
theorem destroy_not_mem (g : SceneObjects) (x : Nat) (h : x ∉ ids g) : destroy g x = g := by
  induction g with
  | nil => rfl
  | cons i fl ch nx ihc ihn =>
    simp only [ids, List.mem_cons, List.mem_append, not_or] at h
    have hi : ¬ i = x := fun c => h.1 c.symm
    simp only [destroy, if_neg hi, ihc h.2.1, ihn h.2.2]

/-- Pruning only removes objects. -/
theorem ids_pruned_sublist (k : Nat) (g : SceneObjects) :
    List.Sublist (ids (pruned k g)) (ids g) := by
  induction g with
  | nil => exact List.Sublist.refl _
  | cons i fl ch nx ihc ihn =>
    by_cases hf : hasFlag fl k = true
    · simp only [pruned, hf, if_true, ids]
      exact List.Sublist.cons _ (List.Sublist.trans ihn (List.sublist_append_right _ _))
    · simp only [pruned, hf, ids]
      exact List.Sublist.cons₂ _ (List.Sublist.append ihc ihn)

/-- The objects of the top level are objects of the hierarchy. -/
theorem roots_sublist_ids (g : SceneObjects) : List.Sublist (roots g) (ids g) := by
  induction g with
  | nil => exact List.Sublist.refl _
  | cons i fl ch nx _ ihn =>
    simp only [roots, ids]
    exact List.Sublist.cons₂ _ (List.Sublist.trans ihn (List.sublist_append_right _ _))

/-- The whole hierarchy is embedded in itself. -/
theorem local_id (P : Nat → Prop) : Local (fun g => g) P := by
  intro g _ _ x _
  exact ⟨rfl, rfl⟩

/-- The siblings after an object are embedded in the level of that object. -/
theorem local_next (C : SceneObjects → SceneObjects) (P : Nat → Prop) (i fl : Nat)
    (ch nx : SceneObjects) (hC : Local C P)
    (hnd : (ids (cons i fl ch nx)).Nodup) (hP : ∀ x ∈ ids (cons i fl ch nx), P x) :
    Local (fun h => C (cons i fl ch h)) (fun x => x ∈ ids nx) := by
  intro g hg hsub x hx
  simp only [ids, List.nodup_cons, List.mem_append, not_or, List.nodup_append] at hnd
  obtain ⟨⟨hi1, hi2⟩, hch, hnx, hdisj⟩ := hnd
  have hxnx : x ∈ ids nx := hsub x hx
  have hxi : i ≠ x := fun c => hi2 (c ▸ hxnx)
  have hxch : x ∉ ids ch := fun c => hdisj c hxnx
  have hnd2 : (ids (cons i fl ch g)).Nodup := by
    simp only [ids, List.nodup_cons, List.mem_append, not_or, List.nodup_append]
    exact ⟨⟨hi1, fun c => hi2 (hsub i c)⟩, hch, hg, fun a ha hb => hdisj ha (hsub _ hb)⟩
  have hP2 : ∀ y ∈ ids (cons i fl ch g), P y := by
    intro y hy
    apply hP
    simp only [ids, List.mem_cons, List.mem_append] at hy ⊢
    rcases hy with h | h | h
    · exact Or.inl h
    · exact Or.inr (Or.inl h)
    · exact Or.inr (Or.inr (hsub y h))
  have hmem : x ∈ ids (cons i fl ch g) := by
    simp only [ids, List.mem_cons, List.mem_append]; exact Or.inr (Or.inr hx)
  obtain ⟨h1, h2⟩ := hC (cons i fl ch g) hnd2 hP2 x hmem
  constructor
  · rw [h1]
    simp only [lookup, if_neg hxi, lookup_not_mem ch x hxch]
  · rw [h2]
    simp only [destroy, if_neg hxi, destroy_not_mem ch x hxch]

/-- The children of an object are embedded in the level of that object. -/
theorem local_children (C : SceneObjects → SceneObjects) (P : Nat → Prop) (i fl : Nat)
    (ch nx : SceneObjects) (hC : Local C P)
    (hnd : (ids (cons i fl ch nx)).Nodup) (hP : ∀ x ∈ ids (cons i fl ch nx), P x) :
    Local (fun h => C (cons i fl h nx)) (fun x => x ∈ ids ch) := by
  intro g hg hsub x hx
  simp only [ids, List.nodup_cons, List.mem_append, not_or, List.nodup_append] at hnd
  obtain ⟨⟨hi1, hi2⟩, hch, hnx, hdisj⟩ := hnd
  have hxch : x ∈ ids ch := hsub x hx
  have hxi : i ≠ x := fun c => hi1 (c ▸ hxch)
  have hxnx : x ∉ ids nx := fun c => hdisj hxch c
  have hnd2 : (ids (cons i fl g nx)).Nodup := by
    simp only [ids, List.nodup_cons, List.mem_append, not_or, List.nodup_append]
    exact ⟨⟨fun c => hi1 (hsub i c), hi2⟩, hg, hnx, fun a ha hb => hdisj (hsub _ ha) hb⟩
  have hP2 : ∀ y ∈ ids (cons i fl g nx), P y := by
    intro y hy
    apply hP
    simp only [ids, List.mem_cons, List.mem_append] at hy ⊢
    rcases hy with h | h | h
    · exact Or.inl h
    · exact Or.inr (Or.inl (hsub y h))
    · exact Or.inr (Or.inr h)
  have hmem : x ∈ ids (cons i fl g nx) := by
    simp only [ids, List.mem_cons, List.mem_append]; exact Or.inr (Or.inl hx)
  obtain ⟨h1, h2⟩ := hC (cons i fl g nx) hnd2 hP2 x hmem
  constructor
  · rw [h1]
    simp only [lookup, if_neg hxi, lookup_not_mem nx x hxnx]
    cases lookup g x <;> rfl
  · rw [h2]
    simp only [destroy, if_neg hxi, destroy_not_mem nx x hxnx]

/-- Pruning the following siblings keeps instance ids unique. -/
theorem nodup_cons_pruned_next (k i fl : Nat) (ch nx : SceneObjects)
    (hnd : (ids (cons i fl ch nx)).Nodup) : (ids (cons i fl ch (pruned k nx))).Nodup := by
  refine List.Nodup.sublist ?_ hnd
  simp only [ids]
  exact List.Sublist.cons₂ _
    (List.Sublist.append (List.Sublist.refl _) (ids_pruned_sublist k nx))

/-- With the handles of a level on top of the stack, last object on top, the loop pops them and
everything they push, and leaves that level pruned inside its surroundings, before it touches the
rest of the stack. -/
theorem removeDontSave_level (k : Nat) (g : SceneObjects) :
    ∀ (C : SceneObjects → SceneObjects) (P : Nat → Prop) (st : List Nat) (n : Nat),
      Local C P → (ids g).Nodup → (∀ x ∈ ids g, P x) →
      removeDontSave k (n + pops k g) (C g) ((roots g).reverse ++ st) =
        removeDontSave k n (C (pruned k g)) st := by
  induction g with
  | nil =>
    intro C P st n _ _ _
    simp [pops, roots, pruned]
  | cons i fl ch nx ihc ihn =>
    intro C P st n hC hnd hP
    have hnd0 := hnd
    simp only [ids, List.nodup_cons, List.mem_append, not_or, List.nodup_append] at hnd0
    obtain ⟨⟨hi1, hi2⟩, hch, hnx, hdisj⟩ := hnd0
    have hstack : (roots (cons i fl ch nx)).reverse ++ st = (roots nx).reverse ++ (i :: st) := by
      simp [roots]
    have hfuel : n + pops k (cons i fl ch nx) =
        (n + (if hasFlag fl k then 0 else pops k ch) + 1) + pops k nx := by
      simp only [pops]; omega
    rw [hstack, hfuel]
    rw [ihn (fun h => C (cons i fl ch h)) (fun x => x ∈ ids nx) (i :: st) _
      (local_next C P i fl ch nx hC hnd hP) hnx (fun x hx => hx)]
    have hnd1 := nodup_cons_pruned_next k i fl ch nx hnd
    have hP1 : ∀ x ∈ ids (cons i fl ch (pruned k nx)), P x := by
      intro x hx
      apply hP
      simp only [ids, List.mem_cons, List.mem_append] at hx ⊢
      rcases hx with h | h | h
      · exact Or.inl h
      · exact Or.inr (Or.inl h)
      · exact Or.inr (Or.inr ((ids_pruned_sublist k nx).subset h))
    have hmem : i ∈ ids (cons i fl ch (pruned k nx)) := by simp [ids]
    obtain ⟨hl, hd⟩ := hC (cons i fl ch (pruned k nx)) hnd1 hP1 i hmem
    have hl2 : lookup (C (cons i fl ch (pruned k nx))) i = some (fl, roots ch) := by
      rw [hl]; simp [lookup]
    have hd2 : destroy (C (cons i fl ch (pruned k nx))) i = C (pruned k nx) := by
      rw [hd]; simp [destroy]
    by_cases hf : hasFlag fl k = true
    · simp only [hf, if_true, removeDontSave, hl2, hd2, pruned, Nat.add_zero]
    · simp only [hf, removeDontSave, hl2, pruned]
      simp only [Bool.false_eq_true, if_false]
      exact ihc (fun h => C (cons i fl h (pruned k nx))) (fun x => x ∈ ids ch) st n
        (local_children C P i fl ch (pruned k nx) hC hnd1 hP1) hch (fun x hx => hx)

/-- The loop pops at most one handle per object. -/
theorem pops_le_length (k : Nat) (g : SceneObjects) : pops k g ≤ (ids g).length := by
  induction g with
  | nil => simp [pops, ids]
  | cons i fl ch nx ihc ihn =>
    simp only [pops, ids, List.length_cons, List.length_append]
    split <;> omega

/-- Started on the root handle of a hierarchy with unique instance ids, with at least one
iteration per object, the loop returns the pruned hierarchy. -/
theorem removeDontSave_root (k i fl : Nat) (ch : SceneObjects) (fuel : Nat)
    (hnd : (ids (cons i fl ch nil)).Nodup) (hfuel : (ids (cons i fl ch nil)).length ≤ fuel) :
    removeDontSave k fuel (cons i fl ch nil) [i] = .ok (pruned k (cons i fl ch nil)) := by
  have hp := pops_le_length k (cons i fl ch nil)
  have h := removeDontSave_level k (cons i fl ch nil) (fun g => g) (fun _ => True) []
    (fuel - pops k (cons i fl ch nil)) (local_id _) hnd (fun _ _ => trivial)
  have he : fuel - pops k (cons i fl ch nil) + pops k (cons i fl ch nil) = fuel := by omega
  rw [he] at h
  simp only [roots, List.reverse_cons, List.reverse_nil, List.nil_append, List.append_nil] at h
  rw [h]
  cases (fuel - pops k (cons i fl ch nil)) <;> rfl

open PlayInEditorManager

/-- On a well-formed root node saveSceneInMemory returns and holds the pruned clone. -/
theorem saveSceneInMemory_wellFormed (k : Nat) (m : PlayInEditorManager)
    (hw : WellFormed m.engine.rootNode) :
    saveSceneInMemory k m = .ok { m with
      mSavedScene := some (HSceneObject.mk m.engine.rootNode.instanceId
        (pruned k m.engine.rootNode.objects) false) } := by
  obtain ⟨fl, ch, ho, hnd⟩ := hw
  have hd : m.engine.rootNode.isDestroyed = false := by
    simp [HSceneObject.isDestroyed, ho]
  unfold saveSceneInMemory
  simp only [hd, Bool.false_eq_true, if_false, HSceneObject.clone]
  rw [ho] at hnd ⊢
  rw [removeDontSave_root k _ fl ch _ hnd (le_refl _)]

/-- The loop dereferences no null handle. -/
theorem removeDontSave_not_null (k : Nat) :
    ∀ (fuel : Nat) (scene : SceneObjects) (todo : List Nat),
      removeDontSave k fuel scene todo ≠ .error .nullHandle := by
  intro fuel
  induction fuel with
  | zero =>
    intro scene todo
    cases todo <;> simp [removeDontSave]
  | succ fuel ih =>
    intro scene todo
    cases todo with
    | nil => simp [removeDontSave]
    | cons x rest =>
      unfold removeDontSave
      cases hl : lookup scene x with
      | none => simp
      | some r =>
        obtain ⟨fl, kids⟩ := r
        simp only
        split
        · exact ih _ _
        · exact ih _ _

/-- The function saveSceneInMemory either stores a saved scene or fails with a fault other than a
null handle. -/
theorem saveSceneInMemory_cases (k : Nat) (m : PlayInEditorManager) :
    (∃ sv, saveSceneInMemory k m = .ok { m with mSavedScene := some sv }) ∨
    (∃ f, saveSceneInMemory k m = .error f ∧ f ≠ .nullHandle) := by
  unfold saveSceneInMemory
  by_cases hd : m.engine.rootNode.isDestroyed = true
  · right
    exact ⟨.destroyedObject, by simp [hd], by simp⟩
  · simp only [hd]
    cases hr : removeDontSave k (ids (m.engine.rootNode.clone false).objects).length
        (m.engine.rootNode.clone false).objects [(m.engine.rootNode.clone false).instanceId] with
    | ok objs => left; exact ⟨_, rfl⟩
    | error f =>
      right
      refine ⟨f, rfl, ?_⟩
      intro hf
      subst hf
      exact removeDontSave_not_null k _ _ _ hr

/-- From a state satisfying the editor invariant, setStateImmediate either returns with the
requested state and the invariant, or fails with a fault other than a null handle. -/
theorem setStateImmediate_editor (k : Nat) (state : PlayInEditorState)
    (m : PlayInEditorManager) (hinv : EditorInv m) :
    (∃ m1, setStateImmediate k state m = .ok m1 ∧ m1.mState = state ∧ EditorInv m1) ∨
    (∃ f, setStateImmediate k state m = .error f ∧ f ≠ .nullHandle) := by
  by_cases hsame : m.mState = state
  · left
    exact ⟨m, by simp [setStateImmediate, hsame], hsame, hinv⟩
  · cases state with
    | Stopped =>
      cases hsv : m.mSavedScene with
      | none => exact absurd (hinv.mpr hsv) hsame
      | some sv =>
        by_cases hd : sv.isDestroyed = true
        · right
          exact ⟨.destroyedObject,
            by simp [setStateImmediate, hsame, setSystemsPauseState, hsv, hd], by simp⟩
        · left
          simp only [setStateImmediate, if_neg hsame, setSystemsPauseState, hsv, hd,
            Bool.false_eq_true, if_false]
          exact ⟨_, rfl, rfl, by simp [EditorInv]⟩
    | Playing =>
      by_cases hold : m.mState = .Stopped
      · rcases saveSceneInMemory_cases k { m with mState := PlayInEditorState.Playing } with
          ⟨sv, hsave⟩ | ⟨f, hsave, hf⟩
        · left
          simp only [setStateImmediate, if_neg hsame, hold, if_true, hsave]
          exact ⟨_, rfl, rfl, by simp [EditorInv, setSystemsPauseState, wakeRuntimeComponents]⟩
        · right
          simp only [setStateImmediate, if_neg hsame, hold, if_true, hsave]
          exact ⟨f, rfl, hf⟩
      · left
        simp only [setStateImmediate, if_neg hsame, if_neg hold]
        refine ⟨_, rfl, rfl, ?_⟩
        simp only [EditorInv, setSystemsPauseState]
        constructor
        · intro h; cases h
        · intro h; exact absurd (hinv.mpr h) hold
    | Paused =>
      by_cases hold : m.mState = .Stopped
      · rcases saveSceneInMemory_cases k (setSystemsPauseState true
            { m with mState := PlayInEditorState.Paused, mFrameStepActive := false }) with
          ⟨sv, hsave⟩ | ⟨f, hsave, hf⟩
        · left
          simp only [setStateImmediate, if_neg hsame, hold, if_true, hsave]
          exact ⟨_, rfl, rfl, by simp [EditorInv, setSystemsPauseState, wakeRuntimeComponents]⟩
        · right
          simp only [setStateImmediate, if_neg hsame, hold, if_true, hsave]
          exact ⟨f, rfl, hf⟩
      · left
        simp only [setStateImmediate, if_neg hsame, if_neg hold]
        refine ⟨_, rfl, rfl, ?_⟩
        simp only [EditorInv, setSystemsPauseState]
        constructor
        · intro h; cases h
        · intro h; exact absurd (hinv.mpr h) hold

/-- With live scene handles setStateImmediate returns with the requested state. -/
theorem setStateImmediate_ready (k : Nat) (state : PlayInEditorState)
    (m : PlayInEditorManager) (hinv : EditorInv m) (hready : SceneReady m) :
    ∃ m1, setStateImmediate k state m = .ok m1 ∧ m1.mState = state := by
  obtain ⟨hroot, hlive⟩ := hready
  by_cases hsame : m.mState = state
  · exact ⟨m, by simp [setStateImmediate, hsame], hsame⟩
  · cases state with
    | Stopped =>
      cases hsv : m.mSavedScene with
      | none => exact absurd (hinv.mpr hsv) hsame
      | some sv =>
        have hd := hlive sv hsv
        simp only [setStateImmediate, if_neg hsame, setSystemsPauseState, hsv, hd,
          Bool.false_eq_true, if_false]
        exact ⟨_, rfl, rfl⟩
    | Playing =>
      by_cases hold : m.mState = .Stopped
      · have hsave := saveSceneInMemory_wellFormed k
          { m with mState := PlayInEditorState.Playing } hroot
        simp only [setStateImmediate, if_neg hsame, hold, if_true, hsave]
        exact ⟨_, rfl, rfl⟩
      · simp only [setStateImmediate, if_neg hsame, if_neg hold]
        exact ⟨_, rfl, rfl⟩
    | Paused =>
      by_cases hold : m.mState = .Stopped
      · have hsave := saveSceneInMemory_wellFormed k (setSystemsPauseState true
          { m with mState := PlayInEditorState.Paused, mFrameStepActive := false }) hroot
        simp only [setStateImmediate, if_neg hsame, hold, if_true, hsave]
        exact ⟨_, rfl, rfl⟩
      · simp only [setStateImmediate, if_neg hsame, if_neg hold]
        exact ⟨_, rfl, rfl⟩

/-- From a state satisfying the editor invariant, update either returns, keeps the invariant and
has carried out a scheduled change, or fails with a fault other than a null handle. -/
theorem update_editor (k : Nat) (frameDelta : Int) (m : PlayInEditorManager)
    (hinv : EditorInv m) :
    (∃ m1, update true k frameDelta m = .ok m1 ∧ EditorInv m1 ∧
      (m.mScheduledStateChange = true → m1.mState = m.mNextState)) ∨
    (∃ f, update true k frameDelta m = .error f ∧ f ≠ .nullHandle) := by
  have key : ∀ m0 : PlayInEditorManager, EditorInv m0 →
      (∃ m1, (match (if m0.mScheduledStateChange then
          match setStateImmediate k m0.mNextState m0 with
          | .ok m2 => Except.ok { m2 with mScheduledStateChange := false }
          | .error f => .error f
        else Except.ok m0 : Except Fault PlayInEditorManager) with
        | .ok m3 =>
          if m3.mFrameStepActive then
            Except.ok { setState true .Paused m3 with mFrameStepActive := false }
          else .ok m3
        | .error f => .error f) = Except.ok m1 ∧ EditorInv m1 ∧
        (m0.mScheduledStateChange = true → m1.mState = m0.mNextState)) ∨
      (∃ f, (match (if m0.mScheduledStateChange then
          match setStateImmediate k m0.mNextState m0 with
          | .ok m2 => Except.ok { m2 with mScheduledStateChange := false }
          | .error f => .error f
        else Except.ok m0 : Except Fault PlayInEditorManager) with
        | .ok m3 =>
          if m3.mFrameStepActive then
            Except.ok { setState true .Paused m3 with mFrameStepActive := false }
          else .ok m3
        | .error f => .error f) = Except.error f ∧ f ≠ .nullHandle) := by
    intro m0 h0
    by_cases hs : m0.mScheduledStateChange = true
    · rcases setStateImmediate_editor k m0.mNextState m0 h0 with
        ⟨m2, hm2, hst, hi2⟩ | ⟨f, hf, hne⟩
      · left
        simp only [hs, if_true, hm2]
        by_cases hfs : m2.mFrameStepActive = true
        · simp only [hfs, if_true]
          exact ⟨_, rfl, hi2, fun _ => hst⟩
        · simp only [hfs]
          exact ⟨_, rfl, hi2, fun _ => hst⟩
      · right
        simp only [hs, if_true, hf]
        exact ⟨f, rfl, hne⟩
    · left
      have hs1 : m0.mScheduledStateChange = false := by simpa using hs
      simp only [hs1, Bool.false_eq_true, if_false]
      by_cases hfs : m0.mFrameStepActive = true
      · simp only [hfs, if_true]
        exact ⟨_, rfl, h0, fun h => h.elim⟩
      · have hfs1 : m0.mFrameStepActive = false := by simpa using hfs
        simp only [hfs1, Bool.false_eq_true, if_false]
        exact ⟨_, rfl, h0, fun h => h.elim⟩
  unfold update
  by_cases hp : m.mState = .Playing
  · simp only [if_pos hp]
    exact key { m with mPausableTime := m.mPausableTime + frameDelta } hinv
  · simp only [if_neg hp]
    exact key m hinv

/-- With live scene handles an update with a scheduled change returns in the scheduled state. -/
theorem update_ready (k : Nat) (frameDelta : Int) (m : PlayInEditorManager)
    (hinv : EditorInv m) (hready : SceneReady m) (hs : m.mScheduledStateChange = true) :
    ∃ m1, update true k frameDelta m = .ok m1 ∧ m1.mState = m.mNextState := by
  have key : ∀ m0 : PlayInEditorManager, EditorInv m0 → SceneReady m0 →
      m0.mScheduledStateChange = true →
      ∃ m1, (match (if m0.mScheduledStateChange then
          match setStateImmediate k m0.mNextState m0 with
          | .ok m2 => Except.ok { m2 with mScheduledStateChange := false }
          | .error f => .error f
        else Except.ok m0 : Except Fault PlayInEditorManager) with
        | .ok m3 =>
          if m3.mFrameStepActive then
            Except.ok { setState true .Paused m3 with mFrameStepActive := false }
          else .ok m3
        | .error f => .error f) = Except.ok m1 ∧ m1.mState = m0.mNextState := by
    intro m0 h0 hr0 hs0
    obtain ⟨m2, hm2, hst⟩ := setStateImmediate_ready k m0.mNextState m0 h0 hr0
    simp only [hs0, if_true, hm2]
    by_cases hfs : m2.mFrameStepActive = true
    · simp only [hfs, if_true]
      exact ⟨_, rfl, hst⟩
    · simp only [hfs]
      exact ⟨_, rfl, hst⟩
  unfold update
  by_cases hp : m.mState = .Playing
  · simp only [if_pos hp]
    exact key { m with mPausableTime := m.mPausableTime + frameDelta } hinv hready hs
  · simp only [if_neg hp]
    exact key m hinv hready hs

/-- Outside the editor an update only advances the pausable time. -/
theorem update_game (k : Nat) (frameDelta : Int) (m : PlayInEditorManager)
    (hinv : GameInv m) :
    update false k frameDelta m = .ok { m with mPausableTime := m.mPausableTime + frameDelta } := by
  obtain ⟨h1, h2, h3⟩ := hinv
  simp [update, h1, h2, h3]

/-- Every reachable state satisfies the invariant of its mode. -/
theorem reachable_inv (isEditor : Bool) (k : Nat) (m : PlayInEditorManager)
    (h : Reachable isEditor k m) :
    (isEditor = true → EditorInv m) ∧ (isEditor = false → GameInv m) := by
  induction h with
  | created engine =>
    constructor
    · intro he; subst he
      simp [create, setSystemsPauseState, EditorInv]
    · intro he; subst he
      simp [create, GameInv]
  | afterSetState state m _ ih =>
    constructor
    · intro he; subst he
      exact ih.1 rfl
    · intro he; subst he
      simpa [PlayInEditorManager.setState] using ih.2 rfl
  | afterFrameStep m _ ih =>
    constructor
    · intro he; subst he
      have h0 := ih.1 rfl
      unfold EditorInv at h0 ⊢
      cases hm : m.mState <;>
        simpa [PlayInEditorManager.frameStep, PlayInEditorManager.setState, hm] using h0
    · intro he; subst he
      simpa [PlayInEditorManager.frameStep] using ih.2 rfl
  | afterUpdate frameDelta m m1 _ hstep ih =>
    constructor
    · intro he; subst he
      rcases update_editor k frameDelta m (ih.1 rfl) with ⟨m2, e2, i2, _⟩ | ⟨f, e2, _⟩
      · rw [e2] at hstep
        cases hstep
        exact i2
      · rw [e2] at hstep
        cases hstep
    · intro he; subst he
      rw [update_game k frameDelta m (ih.2 rfl)] at hstep
      cases hstep
      exact ih.2 rfl
  | sceneChanged rootNode m _ ih =>
    exact ⟨fun he => ih.1 he, fun he => ih.2 he⟩

/-- No object of a pruned hierarchy carries the flag. -/
theorem flaggedIds_pruned (k : Nat) (g : SceneObjects) : flaggedIds k (pruned k g) = [] := by
  induction g with
  | nil => rfl
  | cons i fl ch nx ihc ihn =>
    by_cases hf : hasFlag fl k = true
    · simp only [pruned, hf, if_true, ihn]
    · simp [pruned, hf, flaggedIds, ihc, ihn]

/-- The objects of the pruned hierarchy are the objects without a flagged ancestor-or-self. -/
theorem ids_pruned_eq_kept (k : Nat) (g : SceneObjects) : ids (pruned k g) = kept k g := by
  induction g with
  | nil => rfl
  | cons i fl ch nx ihc ihn =>
    by_cases hf : hasFlag fl k = true
    · simp [pruned, hf, kept, ihn]
    · simp [pruned, hf, kept, ids, ihc, ihn]

/-- Kept objects are objects of the hierarchy. -/
theorem kept_subset_ids (k : Nat) (g : SceneObjects) : ∀ x ∈ kept k g, x ∈ ids g := by
  intro x hx
  rw [← ids_pruned_eq_kept] at hx
  exact (ids_pruned_sublist k g).subset hx

/-- The child of every parent/child pair is an object of the hierarchy. -/
theorem links_child_mem (g : SceneObjects) :
    ∀ (p : Option Nat) (e : Option Nat × Nat), e ∈ links p g → e.2 ∈ ids g := by
  induction g with
  | nil => intro p e he; simp [links] at he
  | cons i fl ch nx ihc ihn =>
    intro p e he
    simp only [links, List.mem_cons, List.mem_append] at he
    simp only [ids, List.mem_cons, List.mem_append]
    rcases he with h | h | h
    · left; rw [h]
    · right; left; exact ihc _ e h
    · right; right; exact ihn _ e h

/-- The parent/child pairs of the pruned hierarchy are those of the original whose child is kept. -/
theorem links_pruned (k : Nat) (g : SceneObjects) :
    ∀ (p : Option Nat), (ids g).Nodup →
      links p (pruned k g) = (links p g).filter (fun e => decide (e.2 ∈ kept k g)) := by
  induction g with
  | nil => intro p _; rfl
  | cons i fl ch nx ihc ihn =>
    intro p hnd
    simp only [ids, List.nodup_cons, List.mem_append, not_or, List.nodup_append] at hnd
    obtain ⟨⟨hi1, hi2⟩, hch, hnx, hdisj⟩ := hnd
    have hcongr_nx : (links p nx).filter
        (fun e => decide (e.2 ∈ kept k (cons i fl ch nx))) =
        (links p nx).filter (fun e => decide (e.2 ∈ kept k nx)) := by
      apply List.filter_congr
      intro e he
      have hmem := links_child_mem nx p e he
      have hne : e.2 ≠ i := fun c => hi2 (c ▸ hmem)
      have hnc : e.2 ∉ kept k ch := fun c => hdisj (kept_subset_ids k ch _ c) hmem
      by_cases hf : hasFlag fl k = true
      · simp [kept, hf]
      · simp [kept, hf, hne, hnc]
    by_cases hf : hasFlag fl k = true
    · have hi : i ∉ kept k nx := fun c => hi2 (kept_subset_ids k nx _ c)
      have hdrop : (links (some i) ch).filter
          (fun e => decide (e.2 ∈ kept k (cons i fl ch nx))) = [] := by
        rw [List.filter_eq_nil_iff]
        intro e he
        have hmem := links_child_mem ch _ e he
        have : e.2 ∉ kept k nx := fun c => hdisj hmem (kept_subset_ids k nx _ c)
        simpa [kept, hf] using this
      simp only [links, List.filter_cons, List.filter_append, hdrop, hcongr_nx]
      simp only [pruned, hf, if_true, kept, List.nil_append, hi, decide_False,
        Bool.false_eq_true, if_false]
      exact ihn p hnx
    · have hcongr_ch : (links (some i) ch).filter
          (fun e => decide (e.2 ∈ kept k (cons i fl ch nx))) =
          (links (some i) ch).filter (fun e => decide (e.2 ∈ kept k ch)) := by
        apply List.filter_congr
        intro e he
        have hmem := links_child_mem ch _ e he
        have hne : e.2 ≠ i := fun c => hi1 (c ▸ hmem)
        have hnc : e.2 ∉ kept k nx := fun c => hdisj hmem (kept_subset_ids k nx _ c)
        simp [kept, hf, hne, hnc]
      simp only [links, List.filter_cons, List.filter_append, hcongr_ch, hcongr_nx]
      simp [pruned, hf, kept, links, ihc (some i) hch, ihn p hnx]

/-! ## Theorems: claims about the manager and the saved scene -/

/-- C6: for every finite scene hierarchy, saveSceneInMemory returns, and the saved clone is the
clone with exactly the subtrees rooted at objects with the flag pruned: no remaining object
carries the flag, the remaining objects are exactly those that neither carry the flag nor have an
ancestor carrying it, and their parent/child relation is that of the clone. -/
theorem saveSceneInMemory_prunes_flagged_subtrees (k : Nat) (m : PlayInEditorManager)
    (hw : WellFormed m.engine.rootNode) :
    saveSceneInMemory k m = .ok { m with
      mSavedScene := some (HSceneObject.mk m.engine.rootNode.instanceId
        (pruned k m.engine.rootNode.objects) false) } ∧
    flaggedIds k (pruned k m.engine.rootNode.objects) = [] ∧
    ids (pruned k m.engine.rootNode.objects) = kept k m.engine.rootNode.objects ∧
    links none (pruned k m.engine.rootNode.objects) =
      (links none m.engine.rootNode.objects).filter
        (fun e => decide (e.2 ∈ kept k m.engine.rootNode.objects)) := by
  obtain ⟨fl, ch, ho, hnd⟩ := hw
  exact ⟨saveSceneInMemory_wellFormed k m ⟨fl, ch, ho, hnd⟩, flaggedIds_pruned k _,
    ids_pruned_eq_kept k _, links_pruned k _ none hnd⟩

/-- Witness for C6: the sample scene, with 2 as the flag. -/
theorem saveSceneInMemory_prunes_flagged_subtrees_witness :
    WellFormed (create true sampleEngine).engine.rootNode ∧
    saveSceneInMemory 2 (create true sampleEngine) = .ok { create true sampleEngine with
      mSavedScene := some (HSceneObject.mk 1 (pruned 2 sampleScene) false) } ∧
    flaggedIds 2 (pruned 2 sampleScene) = [] ∧
    ids (pruned 2 sampleScene) = kept 2 sampleScene ∧
    links none (pruned 2 sampleScene) =
      (links none sampleScene).filter (fun e => decide (e.2 ∈ kept 2 sampleScene)) :=
  ⟨⟨0, _, rfl, by decide⟩,
    saveSceneInMemory_prunes_flagged_subtrees 2 (create true sampleEngine)
      ⟨0, _, rfl, by decide⟩⟩

/-- C5: in editor mode, for every reachable manager state and every target state, setState only
records the target in mNextState and sets mScheduledStateChange, leaving every other member and
the engine unchanged; whenever the next update returns, the current state is the target, and the
update does return when the scene handles it dereferences are live. -/
theorem setState_takes_effect_at_next_update (k : Nat) (frameDelta : Int)
    (m : PlayInEditorManager) (s : PlayInEditorState) (hreach : Reachable true k m) :
    setState true s m = { m with mScheduledStateChange := true, mNextState := s } ∧
    (∀ m1, update true k frameDelta (setState true s m) = .ok m1 → m1.mState = s) ∧
    (SceneReady m →
      ∃ m1, update true k frameDelta (setState true s m) = .ok m1 ∧ m1.mState = s) := by
  have hinv : EditorInv m := (reachable_inv true k m hreach).1 rfl
  have hset : setState true s m = { m with mScheduledStateChange := true, mNextState := s } :=
    rfl
  have hinv1 : EditorInv (setState true s m) := hinv
  refine ⟨hset, ?_, ?_⟩
  · intro m1 h1
    rcases update_editor k frameDelta (setState true s m) hinv1 with
      ⟨m2, e2, _, hs2⟩ | ⟨f, e2, _⟩
    · rw [e2] at h1
      cases h1
      exact hs2 rfl
    · rw [e2] at h1
      cases h1
  · intro hready
    exact update_ready k frameDelta (setState true s m) hinv1 hready rfl

/-- Witness for C5: stopping play from the reachable Playing state of the sample engine. -/
theorem setState_takes_effect_at_next_update_witness :
    Reachable true 2 samplePlaying ∧ SceneReady samplePlaying ∧
    setState true .Stopped samplePlaying =
      { samplePlaying with mScheduledStateChange := true, mNextState := .Stopped } ∧
    (∀ m1, update true 2 1 (setState true .Stopped samplePlaying) = .ok m1 →
      m1.mState = .Stopped) ∧
    ∃ m1, update true 2 1 (setState true .Stopped samplePlaying) = .ok m1 ∧
      m1.mState = .Stopped := by
  have hreach : Reachable true 2 samplePlaying :=
    Reachable.afterUpdate 1 (setState true .Playing (create true sampleEngine)) samplePlaying
      (Reachable.afterSetState .Playing _ (Reachable.created sampleEngine)) rfl
  have hready : SceneReady samplePlaying :=
    ⟨⟨0, _, rfl, by decide⟩, fun sv h => by cases h; rfl⟩
  have h := setState_takes_effect_at_next_update 2 1 samplePlaying .Stopped hreach
  exact ⟨hreach, hready, h.1, h.2.1, h.2.2 hready⟩

/-- C8: in editor mode, in every state reachable from construction by setState, frameStep and
update calls, the current state is Stopped if and only if mSavedScene is null, so neither
setStateImmediate nor update ever dereferences a null saved scene; outside the editor the state
is Playing in every reachable state, nothing is ever scheduled, setState and frameStep do nothing
and update only advances the pausable time, without entering setStateImmediate. -/
theorem stopped_iff_no_saved_scene (isEditor : Bool) (k : Nat) (m : PlayInEditorManager)
    (hreach : Reachable isEditor k m) :
    (isEditor = true →
      (m.mState = .Stopped ↔ m.mSavedScene = none) ∧
      (∀ s, setStateImmediate k s m ≠ .error .nullHandle) ∧
      (∀ frameDelta, update true k frameDelta m ≠ .error .nullHandle)) ∧
    (isEditor = false →
      m.mState = .Playing ∧ m.mScheduledStateChange = false ∧
      (∀ s, setState false s m = m) ∧ frameStep false m = m ∧
      (∀ frameDelta, update false k frameDelta m =
        .ok { m with mPausableTime := m.mPausableTime + frameDelta })) := by
  have hinv := reachable_inv isEditor k m hreach
  constructor
  · intro he
    have h0 : EditorInv m := hinv.1 he
    refine ⟨h0, ?_, ?_⟩
    · intro s hs
      rcases setStateImmediate_editor k s m h0 with ⟨m1, e1, _, _⟩ | ⟨f, e1, hf⟩
      · rw [e1] at hs; cases hs
      · rw [e1] at hs; cases hs; exact hf rfl
    · intro frameDelta hs
      rcases update_editor k frameDelta m h0 with ⟨m1, e1, _, _⟩ | ⟨f, e1, hf⟩
      · rw [e1] at hs; cases hs
      · rw [e1] at hs; cases hs; exact hf rfl
  · intro he
    have h0 : GameInv m := hinv.2 he
    exact ⟨h0.1, h0.2.1, fun _ => rfl, rfl, fun frameDelta => update_game k frameDelta m h0⟩

/-- Witness for C8: the Playing state of the sample engine in the editor, and the freshly
constructed manager outside the editor. -/
theorem stopped_iff_no_saved_scene_witness :
    (Reachable true 2 samplePlaying ∧
      (samplePlaying.mState = .Stopped ↔ samplePlaying.mSavedScene = none) ∧
      (∀ s, setStateImmediate 2 s samplePlaying ≠ .error .nullHandle) ∧
      (∀ frameDelta, update true 2 frameDelta samplePlaying ≠ .error .nullHandle)) ∧
    (Reachable false 2 (create false sampleEngine) ∧
      (create false sampleEngine).mState = .Playing ∧
      (create false sampleEngine).mScheduledStateChange = false) := by
  have hreach : Reachable true 2 samplePlaying :=
    Reachable.afterUpdate 1 (setState true .Playing (create true sampleEngine)) samplePlaying
      (Reachable.afterSetState .Playing _ (Reachable.created sampleEngine)) rfl
  have hgame : Reachable false 2 (create false sampleEngine) := Reachable.created sampleEngine
  have h1 := (stopped_iff_no_saved_scene true 2 samplePlaying hreach).1 rfl
  have h2 := (stopped_iff_no_saved_scene false 2 (create false sampleEngine) hgame).2 rfl
  exact ⟨⟨hreach, h1⟩, hgame, h2.1, h2.2.1⟩

/-! ## Theorems: create command -/

/-- A destroyed object is destroyed. -/
theorem isDestroyed_destroy (handle : Nat) (w : SceneWorld) :
    SceneObject.isDestroyed handle (SceneObject.destroy handle w) = true := by
  simp [SceneObject.isDestroyed, SceneObject.destroy]

/-- The result of revert on a command that holds a handle. -/
theorem revert_result (c : CmdCreateSO) (handle : Nat) (w : SceneWorld)
    (h : c.mSceneObject = some handle) :
    CmdCreateSO.revert c w = ({ c with mSceneObject := none },
      if SceneObject.isDestroyed handle w then w else SceneObject.destroy handle w) := by
  unfold CmdCreateSO.revert
  rw [h]
  cases hd : SceneObject.isDestroyed handle w <;> simp [hd]

/-- C7: commit creates a live scene object and stores the handle to it; a revert after it, in
whatever world it runs, destroys that object unless it is destroyed already, and leaves the
command with a null handle; revert on a command with a null handle changes nothing, and revert is
idempotent. -/
theorem commit_then_revert_destroys_created_object (c : CmdCreateSO) (w : SceneWorld) :
    (CmdCreateSO.commit c w).1.mSceneObject = some w.nextInstanceId ∧
    SceneObject.isDestroyed w.nextInstanceId (CmdCreateSO.commit c w).2 = false ∧
    (∀ later : SceneWorld,
      (CmdCreateSO.revert (CmdCreateSO.commit c w).1 later).1.mSceneObject = none ∧
      SceneObject.isDestroyed w.nextInstanceId
        (CmdCreateSO.revert (CmdCreateSO.commit c w).1 later).2 = true ∧
      (CmdCreateSO.revert (CmdCreateSO.commit c w).1 later).2 =
        (if SceneObject.isDestroyed w.nextInstanceId later then later
         else SceneObject.destroy w.nextInstanceId later)) ∧
    (∀ (c0 : CmdCreateSO) (w0 : SceneWorld),
      CmdCreateSO.revert { c0 with mSceneObject := none } w0 =
        ({ c0 with mSceneObject := none }, w0)) ∧
    (∀ (c0 : CmdCreateSO) (w0 : SceneWorld),
      CmdCreateSO.revert (CmdCreateSO.revert c0 w0).1 (CmdCreateSO.revert c0 w0).2 =
        CmdCreateSO.revert c0 w0) := by
  refine ⟨rfl, ?_, ?_, ?_, ?_⟩
  · simp [CmdCreateSO.commit, SceneObject.create, SceneObject.isDestroyed]
  · intro later
    have hr := revert_result (CmdCreateSO.commit c w).1 w.nextInstanceId later rfl
    rw [hr]
    refine ⟨rfl, ?_, rfl⟩
    cases hd : SceneObject.isDestroyed w.nextInstanceId later
    · simpa using isDestroyed_destroy w.nextInstanceId later
    · simpa using hd
  · intro c0 w0
    rfl
  · intro c0 w0
    cases hc : c0.mSceneObject with
    | none => simp [CmdCreateSO.revert, hc]
    | some handle =>
      rw [revert_result c0 handle w0 hc]
      rfl

end BansheeEngine
